import Mathlib

/-!
# Verification of the `gsheet` spreadsheet-table core

A shallow embedding of `src/gsheet.py`.  The remote Google Sheets service is
an external collaborator; its read / batch-write / clear contract (spec §6)
is modelled by a `Grid` of string cells together with a `RemoteCall` trace
recording every request an operation issues.  The pure column-letter
arithmetic (`next_column`) and the table / store operations are translated
directly from the source.
-/

set_option maxRecDepth 4096

/-- Error taxonomy from the spec (§7).  `next_column`'s `assert column` is
`InvalidInput`, `insert_row`'s membership assert is `UnknownColumn`,
`create_sheet`'s title assert is `DuplicateSheet`.  `DuplicateColumnName`
and `SheetNotFound` are named by the spec's taxonomy; the source code has
no check for duplicate column names. -/
inductive GSheetError where
  | InvalidInput
  | UnknownColumn
  | DuplicateSheet
  | DuplicateColumnName
  | SheetNotFound
  deriving DecidableEq

/-- `char_add_one_or_zero` (src/gsheet.py lines 37-45): add a carry `n` to a
single character; `'Z'` rolls over to `'A'` with carry out. -/
def char_add_one_or_zero (c : Char) (n : Bool) : Char × Bool :=
  if n = false then (c, false)
  else if c = 'Z' then ('A', true)
  else (Char.ofNat (c.toNat + 1), false)

/-- The loop of `next_column` (src/gsheet.py lines 48-52): process the
characters from the rightmost inward, starting with carry 1; returns the
processed characters (in original order) and the final carry. -/
def addOneAux : List Char → List Char × Bool
  | [] => ([], true)
  | c :: rest =>
    let p := addOneAux rest
    let q := char_add_one_or_zero c p.2
    (q.1 :: p.1, q.2)

/-- `next_column` (src/gsheet.py lines 36-55): successor of a column letter.
`assert column` (line 47) rejects only the empty string; the input is
uppercased (`column.upper()`, line 50) and no other validation happens. -/
def next_column (column : String) : Except GSheetError String :=
  if column = "" then .error .InvalidInput
  else
    let cs := column.toList.map Char.toUpper
    let p := addOneAux cs
    .ok ⟨if p.2 then 'A' :: p.1 else p.1⟩

/-- Total wrapper for the internal call sites of `next_column`
(src/gsheet.py lines 83, 122, 173), where the argument is always a
non-empty letter and the error branch is unreachable
(`next_column_total_eq` below). -/
def next_column_total (s : String) : String :=
  match next_column s with
  | .ok r => r
  | .error _ => s

/-- Spec-side decoder (claim wording): the 1-based bijective base-26 value
of a character list, most significant first (`A`=1 … `Z`=26, `AA`=27 …). -/
def decodeL (cs : List Char) : Nat :=
  cs.foldl (fun acc c => 26 * acc + (c.toNat - 64)) 0

/-- Spec-side decoder on strings. -/
def decodeColumn (s : String) : Nat := decodeL s.toList

/-- All characters are uppercase ASCII letters. -/
abbrev UpperList (cs : List Char) : Prop := ∀ c ∈ cs, 65 ≤ c.toNat ∧ c.toNat ≤ 90

/-! ## The remote store model (spec §6)

The remote spreadsheet service is external to the repository.  Following the
spec's external-interface contract, one sheet is a `Grid` of string cells
(row-major, row 1 at index 0, column A at index 0); a read of a range
returns the occupied values with trailing empty cells trimmed, a batch
write sets single cells, and a clear blanks a rectangle.  Every operation
additionally reports the `RemoteCall`s it issued, in order. -/

/-- Cells of one sheet, as held by the remote service. -/
abbrev Grid := List (List String)

/-- A freshly created sheet has no values. -/
def emptyGrid : Grid := []

/-- One entry of a `batchUpdate` body's `data` list (src/gsheet.py
lines 101-104): a range string in A1 notation and the cell values. -/
structure WriteData where
  range : String
  values : List (List String)
  deriving DecidableEq

/-- The remote requests the code can issue (spec §6): a values read, a
values batch write, a values clear, and the add-sheet schema request. -/
inductive RemoteCall where
  | valuesGet (range : String)
  | valuesBatchUpdate (valueInputOption : String) (data : List WriteData)
  | valuesClear (range : String)
  | addSheet (title : String)
  deriving DecidableEq

/-- Modelled from the spec (§6): the remote service reports a row or a
column only up to its last occupied cell. -/
def trimTrailing (l : List String) : List String :=
  (l.reverse.dropWhile (fun v => v == "")).reverse

/-- Modelled from the spec (§6): the `values` of a read of range `1:1` —
absent when row 1 is absent or fully empty, else the one trimmed row. -/
def row1Response (g : Grid) : List (List String) :=
  match g with
  | [] => []
  | r :: _ =>
    match trimTrailing r with
    | [] => []
    | r' => [r']

/-- Modelled from the spec (§6): the `values` of a read of range `A:A` —
one entry per row up to the last row occupied in column A, each entry
holding that row's column-A value (or nothing when the cell is empty). -/
def colAResponse (g : Grid) : List (List String) :=
  (trimTrailing (g.map (fun r => r.headD ""))).map (fun a => if a == "" then [] else [a])

/-- The value of the cell at 0-based row `r`, column `c` (empty if absent). -/
def cellAt (g : Grid) (r c : Nat) : String := (g.getD r []).getD c ""

def padRows (g : Grid) (n : Nat) : Grid := g ++ List.replicate (n - g.length) []

def padCols (row : List String) (n : Nat) : List String :=
  row ++ List.replicate (n - row.length) ""

/-- Modelled from the spec (§6): the remote effect of writing value `v` to
the single cell at 0-based column `c`, row `r`. -/
def applyValue (g : Grid) (c r : Nat) (v : String) : Grid :=
  let g2 := padRows g (r + 1)
  let row := (padCols (g2.getD r []) (c + 1)).set c v
  g2.set r row

def mapWithIndex (f : Nat → List String → List String) : Nat → Grid → Grid
  | _, [] => []
  | i, x :: xs => f i x :: mapWithIndex f (i + 1) xs

def blankRow (colLo colHi : Nat) : Nat → List String → List String
  | _, [] => []
  | c, v :: vs => (if colLo ≤ c ∧ c ≤ colHi then "" else v) :: blankRow colLo colHi (c + 1) vs

/-- Modelled from the spec (§6): the remote effect of clearing the
rectangle with 0-based row bounds `rowLo..rowHi` and column bounds
`colLo..colHi` (inclusive). -/
def clearCells (g : Grid) (rowLo rowHi colLo colHi : Nat) : Grid :=
  mapWithIndex
    (fun r row => if rowLo ≤ r ∧ r ≤ rowHi then blankRow colLo colHi 0 row else row) 0 g

/-! ## Column mappings

`column_dict` is a `bidict` in the source.  It is embedded as an
association list; one assignment `m[k] = v` overwrites an existing key in
place and appends a new key (`bidict`'s default key behaviour).  `bidict`
additionally rejects a duplicate *value*, but at every call site the
assigned values are pairwise distinct column letters, so that branch is
unreachable and is not modelled. -/

def keyIn {α : Type} (m : List (String × α)) (k : String) : Bool :=
  m.any (fun q => q.1 == k)

def lookupD (m : List (String × String)) (k : String) : String :=
  match m.find? (fun q => q.1 == k) with
  | some q => q.2
  | none => ""

/-- One assignment `m[k] = v`. -/
def assocPut (m : List (String × String)) (k v : String) : List (String × String) :=
  if keyIn m k then m.map (fun q => if q.1 == k then (k, v) else q) else m ++ [(k, v)]

/-- The mapping-building loop shared by `reflect_columns` (src/gsheet.py
lines 79-83) and `create_sheet` (lines 169-173): assign letters `A`, `B`, …
to the names in order. -/
def buildColumnDictAux : List (String × String) → String → List String → List (String × String)
  | acc, _, [] => acc
  | acc, cid, n :: rest => buildColumnDictAux (assocPut acc n cid) (next_column_total cid) rest

def buildColumnDict (names : List String) : List (String × String) :=
  buildColumnDictAux [] "A" names

/-- The dict comprehension of src/gsheet.py line 178:
`{column_name: column_name for column_name in column_names}`. -/
def pyDictOfNames (names : List String) : List (String × String) :=
  names.foldl (fun m n => assocPut m n n) []

/-- Spec-side description: pair the names with the letters `cid`,
`increment cid`, … in order. -/
def zipLetters : String → List String → List (String × String)
  | _, [] => []
  | cid, n :: rest => (n, cid) :: zipLetters (next_column_total cid) rest

/-- `i`-fold iteration of the column-letter increment. -/
def iterNext : Nat → String → String
  | 0, cid => cid
  | i + 1, cid => iterNext i (next_column_total cid)

/-! ## SheetTable and SpreadSheetDB -/

/-- `SheetTable` (src/gsheet.py lines 58-71): one sheet, identified by
spreadsheet id and title, owning the name → letter `column_dict`.  The
`service` field is the remote collaborator; here the remote state appears
instead as the `Grid` argument of each operation. -/
structure SheetTable where
  spreadsheet_id : String
  title : String
  column_dict : List (String × String)
  deriving DecidableEq

/-- `reflect_columns` (src/gsheet.py lines 73-84): read row 1 and assign
letters from `'A'` onwards to the values found.  Depends only on the
sheet's title and the remote state. -/
def reflect_columns (title : String) (g : Grid) : List (String × String) × List RemoteCall :=
  let range := s!"{title}!1:1"
  let values := row1Response g
  let column_names := values.headD []
  (buildColumnDict column_names, [RemoteCall.valuesGet range])

/-- `next_empty_row_id` (src/gsheet.py lines 112-115): read column A in
full and return the count of returned rows plus one. -/
def next_empty_row_id (title : String) (g : Grid) : Nat × List RemoteCall :=
  let range := s!"{title}!A:A"
  ((colAResponse g).length + 1, [RemoteCall.valuesGet range])

/-- The single-cell range string of src/gsheet.py line 102:
`'{}!{}{}:{}{}'.format(title, column_id, row_id, column_id, row_id)`. -/
def cellRange (title cid : String) (rid : Nat) : String :=
  s!"{title}!{cid}{rid}:{cid}{rid}"

/-- The remote effect of the batched write of `insert_row`: each (name,
value) pair sets the single cell at the name's column and the given row
(letters decode to 1-based column indices). -/
def writeCells (g : Grid) (dict : List (String × String))
    (row : List (String × String)) (rid : Nat) : Grid :=
  row.foldl (fun g2 p => applyValue g2 (decodeColumn (lookupD dict p.1) - 1) (rid - 1) p.2) g

/-- `insert_row` (src/gsheet.py lines 86-110): assert every key is a known
column (before any remote call), read the next empty row id once, then
issue one batched write of one single-cell range per (name, value) pair. -/
def SheetTable.insert_row (t : SheetTable) (g : Grid) (row : List (String × String))
    (value_input_option : String) : Except GSheetError Grid × List RemoteCall :=
  if row.all (fun p => keyIn t.column_dict p.1) then
    let r := next_empty_row_id t.title g
    let data := row.map (fun p =>
      WriteData.mk (cellRange t.title (lookupD t.column_dict p.1) r.1) [[p.2]])
    (.ok (writeCells g t.column_dict row r.1),
      r.2 ++ [RemoteCall.valuesBatchUpdate value_input_option data])
  else (.error .UnknownColumn, [])

/-- A call of `insert_row` that omits `value_input_option`, which the
source defaults to `'USER_ENTERED'` (src/gsheet.py line 86). -/
def SheetTable.insert_row_default (t : SheetTable) (g : Grid)
    (row : List (String × String)) : Except GSheetError Grid × List RemoteCall :=
  t.insert_row g row "USER_ENTERED"

/-- `clear_all_data` (src/gsheet.py lines 117-124): read the next empty row
id, advance a letter from `'A'` once per mapped column, and clear the range
`A2:{column_id}{max_row_id}`. -/
def SheetTable.clear_all_data (t : SheetTable) (g : Grid) : Grid × List RemoteCall :=
  let r := next_empty_row_id t.title g
  let max_row_id := r.1
  let column_id := t.column_dict.foldl (fun cid _ => next_column_total cid) "A"
  let title := t.title
  let range := s!"{title}!A2:{column_id}{max_row_id}"
  (clearCells g 1 (max_row_id - 1) 0 (decodeColumn column_id - 1),
    r.2 ++ [RemoteCall.valuesClear range])

/-- `SpreadSheetDB` (src/gsheet.py lines 127-151): one spreadsheet with its
tables keyed by title. -/
structure SpreadSheetDB where
  spreadsheet_id : String
  sheets : List (String × SheetTable)
  deriving DecidableEq

/-- `create_sheet` (src/gsheet.py lines 153-179): assert the title is new
(before any remote call), issue the add-sheet request, build the column
mapping by assigning letters in order, register the table, and write the
header row via `insert_row` in `'RAW'` mode on the new (empty) sheet. -/
def SpreadSheetDB.create_sheet (db : SpreadSheetDB) (title : String)
    (column_names : List String) :
    Except GSheetError (SpreadSheetDB × SheetTable × Grid) × List RemoteCall :=
  if keyIn db.sheets title then (.error .DuplicateSheet, [])
  else
    let column_dict := buildColumnDict column_names
    let sheet := SheetTable.mk db.spreadsheet_id title column_dict
    let db2 := SpreadSheetDB.mk db.spreadsheet_id (db.sheets ++ [(title, sheet)])
    let r := sheet.insert_row emptyGrid (pyDictOfNames column_names) "RAW"
    match r.1 with
    | .ok g2 => (.ok (db2, sheet, g2), RemoteCall.addSheet title :: r.2)
    | .error e => (.error e, RemoteCall.addSheet title :: r.2)

/-! ## Lemmas -/

theorem char_toNat_ofNat {n : Nat} (h : n < 55296) : (Char.ofNat n).toNat = n := by
  have hv : n.isValidChar := Or.inl h
  simp only [Char.ofNat, hv, dif_pos, Char.ofNatAux, Char.toNat, UInt32.toNat]
  simp

theorem char_toNat_inj {a b : Char} (h : a.toNat = b.toNat) : a = b := by
  have h2 := congrArg Char.ofNat h
  rwa [Char.ofNat_toNat, Char.ofNat_toNat] at h2

theorem char_toUpper_of_upper {c : Char} (h : c.toNat ≤ 90) : c.toUpper = c := by
  have hno : ¬ (c.toNat ≥ 97 ∧ c.toNat ≤ 122) := by omega
  simp only [Char.toUpper, if_neg hno]

theorem map_toUpper_of_upper (l : List Char) (h : ∀ c ∈ l, c.toNat ≤ 90) :
    l.map Char.toUpper = l := by
  induction l with
  | nil => rfl
  | cons a t iht =>
    simp only [List.map_cons]
    rw [char_toUpper_of_upper (h a (List.mem_cons_self a t)),
      iht (fun x hx => h x (List.mem_cons_of_mem a hx))]

theorem decodeL_foldl (cs : List Char) (a : Nat) :
    cs.foldl (fun acc c => 26 * acc + (c.toNat - 64)) a = a * 26 ^ cs.length + decodeL cs := by
  induction cs generalizing a with
  | nil => simp [decodeL]
  | cons c rest ih =>
    show List.foldl _ (26 * a + (c.toNat - 64)) rest = _
    rw [ih]
    have h2 : decodeL (c :: rest) =
        List.foldl (fun acc c => 26 * acc + (c.toNat - 64)) (26 * 0 + (c.toNat - 64)) rest := rfl
    rw [h2, ih]
    simp only [List.length_cons, pow_succ]
    ring

theorem decodeL_cons (c : Char) (cs : List Char) :
    decodeL (c :: cs) = (c.toNat - 64) * 26 ^ cs.length + decodeL cs := by
  have h : decodeL (c :: cs) =
      cs.foldl (fun acc c => 26 * acc + (c.toNat - 64)) (26 * 0 + (c.toNat - 64)) := rfl
  rw [h, decodeL_foldl]
  ring

/-- Core correctness of the carry loop: on uppercase input it computes the
bijective base-26 successor, the output stays uppercase and keeps its
length, and a carry out is worth `26 ^ length`. -/
theorem addOneAux_spec (cs : List Char) (h : UpperList cs) :
    (addOneAux cs).1.length = cs.length ∧ UpperList (addOneAux cs).1 ∧
      decodeL (addOneAux cs).1 + (if (addOneAux cs).2 then 26 ^ cs.length else 0) =
        decodeL cs + 1 := by
  induction cs with
  | nil =>
    refine ⟨rfl, ?_, rfl⟩
    intro c hc
    exact absurd hc (List.not_mem_nil c)
  | cons c rest ih =>
    obtain ⟨ihlen, ihup, ihval⟩ := ih (fun x hx => h x (List.mem_cons_of_mem c hx))
    have hc := h c (List.mem_cons_self c rest)
    cases hn : (addOneAux rest).2 with
    | false =>
      rw [hn] at ihval
      have hshape : addOneAux (c :: rest) = (c :: (addOneAux rest).1, false) := by
        show ((char_add_one_or_zero c (addOneAux rest).2).1 :: (addOneAux rest).1,
          (char_add_one_or_zero c (addOneAux rest).2).2) = _
        rw [hn]
        rfl
      rw [hshape]
      have hif0 : (if (false : Bool) then (26 : Nat) ^ rest.length else 0) = 0 := rfl
      rw [hif0] at ihval
      refine ⟨by simp [ihlen], ?_, ?_⟩
      · intro x hx
        rcases List.mem_cons.1 hx with rfl | hx
        · exact hc
        · exact ihup x hx
      · have hif1 : (if (false : Bool) then (26 : Nat) ^ (c :: rest).length else 0) = 0 := rfl
        rw [hif1, decodeL_cons, decodeL_cons, ihlen]
        omega
    | true =>
      rw [hn] at ihval
      have hif0 : (if (true : Bool) then (26 : Nat) ^ rest.length else 0) = 26 ^ rest.length := rfl
      rw [hif0] at ihval
      by_cases hz : c = 'Z'
      · subst hz
        have hshape : addOneAux ('Z' :: rest) = ('A' :: (addOneAux rest).1, true) := by
          show ((char_add_one_or_zero 'Z' (addOneAux rest).2).1 :: (addOneAux rest).1,
            (char_add_one_or_zero 'Z' (addOneAux rest).2).2) = _
          rw [hn]
          rfl
        rw [hshape]
        refine ⟨by simp [ihlen], ?_, ?_⟩
        · intro x hx
          rcases List.mem_cons.1 hx with rfl | hx
          · exact ⟨by decide, by decide⟩
          · exact ihup x hx
        · have hif1 : (if (true : Bool) then (26 : Nat) ^ ('Z' :: rest).length else 0) =
              26 ^ ('Z' :: rest).length := rfl
          rw [hif1, decodeL_cons, decodeL_cons, ihlen]
          have hA : ('A' : Char).toNat = 65 := by decide
          have hZ : ('Z' : Char).toNat = 90 := by decide
          rw [hA, hZ]
          have hp : (26 : Nat) ^ ('Z' :: rest).length = 26 * 26 ^ rest.length := by
            simp only [List.length_cons, pow_succ]
            ring
          rw [hp]
          omega
      · have hcz : c.toNat ≠ 90 := fun hx => hz (char_toNat_inj (by rw [hx]; decide))
        have hch : char_add_one_or_zero c true = (Char.ofNat (c.toNat + 1), false) := by
          show (if (true : Bool) = false then (c, false)
            else if c = 'Z' then ('A', true) else (Char.ofNat (c.toNat + 1), false)) = _
          rw [if_neg (by decide), if_neg hz]
        have hshape : addOneAux (c :: rest) =
            (Char.ofNat (c.toNat + 1) :: (addOneAux rest).1, false) := by
          show ((char_add_one_or_zero c (addOneAux rest).2).1 :: (addOneAux rest).1,
            (char_add_one_or_zero c (addOneAux rest).2).2) = _
          rw [hn, hch]
        rw [hshape]
        have hsucc : (Char.ofNat (c.toNat + 1)).toNat = c.toNat + 1 :=
          char_toNat_ofNat (by omega)
        refine ⟨by simp [ihlen], ?_, ?_⟩
        · intro x hx
          rcases List.mem_cons.1 hx with rfl | hx
          · rw [hsucc]; omega
          · exact ihup x hx
        · have hif1 : (if (false : Bool) then (26 : Nat) ^ (c :: rest).length else 0) = 0 := rfl
          rw [hif1, decodeL_cons, decodeL_cons, ihlen, hsucc]
          have hd : (c.toNat + 1 - 64) * 26 ^ rest.length =
              (c.toNat - 64) * 26 ^ rest.length + 26 ^ rest.length := by
            have he : c.toNat + 1 - 64 = (c.toNat - 64) + 1 := by omega
            rw [he, add_mul, one_mul]
          rw [hd]
          omega

theorem string_mk_ne_empty {l : List Char} (h : l ≠ []) : (⟨l⟩ : String) ≠ "" := by
  intro hx
  exact h (congrArg String.data hx)

theorem string_toList_ne_nil {L : String} (h : L ≠ "") : L.toList ≠ [] := by
  intro hx
  apply h
  cases L with
  | mk d =>
    simp only [String.toList] at hx
    rw [show d = ([] : List Char) from hx]

/-- On a non-empty all-uppercase string, `next_column` succeeds and the
result is again non-empty, all-uppercase, and decodes to the successor. -/
theorem next_column_spec (L : String) (hne : L ≠ "")
    (hup : UpperList L.toList) :
    ∃ M, next_column L = .ok M ∧ M ≠ "" ∧ UpperList M.toList ∧
      decodeColumn M = decodeColumn L + 1 := by
  have hmap : L.toList.map Char.toUpper = L.toList :=
    map_toUpper_of_upper _ (fun c hcm => (hup c hcm).2)
  obtain ⟨hlen, hu, hval⟩ := addOneAux_spec L.toList hup
  have hL : L.toList ≠ [] := string_toList_ne_nil hne
  have heq : next_column L = .ok ⟨if (addOneAux L.toList).2
      then 'A' :: (addOneAux L.toList).1 else (addOneAux L.toList).1⟩ := by
    show (if L = "" then _ else _) = _
    rw [if_neg hne]
    simp only [hmap]
  cases hcarry : (addOneAux L.toList).2 with
  | false =>
    rw [hcarry] at heq hval
    have hif : (if (false : Bool) then 'A' :: (addOneAux L.toList).1
        else (addOneAux L.toList).1) = (addOneAux L.toList).1 := rfl
    rw [hif] at heq
    have hif2 : (if (false : Bool) then (26 : Nat) ^ L.toList.length else 0) = 0 := rfl
    rw [hif2] at hval
    refine ⟨_, heq, ?_, ?_, ?_⟩
    · apply string_mk_ne_empty
      intro hx
      rw [hx] at hlen
      exact hL (List.length_eq_zero.1 hlen.symm)
    · show UpperList (String.toList ⟨(addOneAux L.toList).1⟩)
      exact hu
    · show decodeL (addOneAux L.toList).1 = decodeL L.toList + 1
      omega
  | true =>
    rw [hcarry] at heq hval
    have hif : (if (true : Bool) then 'A' :: (addOneAux L.toList).1
        else (addOneAux L.toList).1) = 'A' :: (addOneAux L.toList).1 := rfl
    rw [hif] at heq
    have hif2 : (if (true : Bool) then (26 : Nat) ^ L.toList.length else 0) =
        26 ^ L.toList.length := rfl
    rw [hif2] at hval
    refine ⟨_, heq, ?_, ?_, ?_⟩
    · exact string_mk_ne_empty (by simp)
    · show UpperList ('A' :: (addOneAux L.toList).1)
      intro x hx
      rcases List.mem_cons.1 hx with rfl | hx
      · exact ⟨by decide, by decide⟩
      · exact hu x hx
    · show decodeL ('A' :: (addOneAux L.toList).1) = decodeL L.toList + 1
      rw [decodeL_cons, hlen]
      have hA : ('A' : Char).toNat = 65 := by decide
      rw [hA]
      omega

/-- `next_column` never fails on a non-empty string. -/
theorem next_column_ne_empty (L : String) (hne : L ≠ "") :
    next_column L = .ok ⟨if (addOneAux (L.toList.map Char.toUpper)).2
      then 'A' :: (addOneAux (L.toList.map Char.toUpper)).1
      else (addOneAux (L.toList.map Char.toUpper)).1⟩ := by
  show (if L = "" then _ else _) = _
  rw [if_neg hne]

/-- `next_column_total` agrees with `next_column` off the error case. -/
theorem next_column_total_eq (L : String) (hne : L ≠ "") :
    next_column L = .ok (next_column_total L) := by
  rw [next_column_total, next_column_ne_empty L hne]


/-! ## Association-list lemmas -/

theorem keyIn_eq_true {α : Type} (m : List (String × α)) (k : String) :
    keyIn m k = true ↔ ∃ q ∈ m, q.1 = k := by
  simp [keyIn, List.any_eq_true]

theorem assocPut_not_key (m : List (String × String)) (k v : String)
    (hk : keyIn m k = false) : assocPut m k v = m ++ [(k, v)] := by
  unfold assocPut
  rw [if_neg (by simp [hk])]

theorem keyIn_assocPut_iff (m : List (String × String)) (k v a : String) :
    keyIn (assocPut m k v) a = true ↔ (keyIn m a = true ∨ a = k) := by
  unfold assocPut
  by_cases hk : keyIn m k = true
  · rw [if_pos hk]
    simp only [keyIn_eq_true] at hk ⊢
    constructor
    · rintro ⟨q, hq, rfl⟩
      rcases List.mem_map.1 hq with ⟨p, hp, hfp⟩
      by_cases hpk : (p.1 == k) = true
      · rw [if_pos hpk] at hfp
        right
        rw [← hfp]
    

      · rw [if_neg (by simp [hpk])] at hfp
        left
        exact ⟨p, hp, by rw [hfp]⟩
    · rintro (⟨q, hq, rfl⟩ | rfl)
      · by_cases hqk : (q.1 == k) = true
        · refine ⟨(k, v), List.mem_map.2 ⟨q, hq, by rw [if_pos hqk]⟩, ?_⟩
          exact (beq_iff_eq.1 hqk).symm
        · exact ⟨q, List.mem_map.2 ⟨q, hq, by rw [if_neg (by simp [hqk])]⟩, rfl⟩
      · rcases hk with ⟨p, hp, hpk⟩
        exact ⟨(a, v), List.mem_map.2 ⟨p, hp, by rw [if_pos (by simp [hpk])]⟩, rfl⟩
  · rw [if_neg hk]
    simp only [keyIn_eq_true] at hk ⊢
    constructor
    · rintro ⟨q, hq, rfl⟩
      rcases List.mem_append.1 hq with hq | hq
      · exact Or.inl ⟨q, hq, rfl⟩
      · rcases List.mem_singleton.1 hq with rfl
        exact Or.inr rfl
    · rintro (⟨q, hq, rfl⟩ | rfl)
      · exact ⟨q, List.mem_append_left _ hq, rfl⟩
      · exact ⟨(a, v), List.mem_append_right _ (List.mem_singleton.2 rfl), rfl⟩

theorem keyIn_assocPut_ne (m : List (String × String)) (k v a : String)
    (ha : keyIn m a = false) (hne : a ≠ k) : keyIn (assocPut m k v) a = false := by
  cases hv : keyIn (assocPut m k v) a
  · rfl
  · rcases (keyIn_assocPut_iff m k v a).1 hv with h | h
    · rw [ha] at h
      exact absurd h (by simp)
    · exact absurd h hne

theorem mem_assocPut (m : List (String × String)) (k v : String) {p : String × String}
    (hp : p ∈ assocPut m k v) : p ∈ m ∨ p = (k, v) := by
  unfold assocPut at hp
  by_cases hk : keyIn m k = true
  · rw [if_pos hk] at hp
    rcases List.mem_map.1 hp with ⟨q, hq, hfq⟩
    by_cases hqk : (q.1 == k) = true
    · rw [if_pos hqk] at hfq
      exact Or.inr hfq.symm
    · rw [if_neg (by simp [hqk])] at hfq
      exact Or.inl (hfq ▸ hq)
  · rw [if_neg hk] at hp
    rcases List.mem_append.1 hp with hp | hp
    · exact Or.inl hp
    · exact Or.inr (List.mem_singleton.1 hp)

theorem keyIn_buildColumnDictAux (names : List String) :
    ∀ (acc : List (String × String)) (cid : String) (a : String),
      keyIn (buildColumnDictAux acc cid names) a = true ↔
        (keyIn acc a = true ∨ a ∈ names) := by
  induction names with
  | nil =>
    intro acc cid a
    simp [buildColumnDictAux]
  | cons n rest ih =>
    intro acc cid a
    show keyIn (buildColumnDictAux (assocPut acc n cid) (next_column_total cid) rest) a = true ↔ _
    rw [ih, keyIn_assocPut_iff]
    constructor
    · rintro ((h | rfl) | h)
      · exact Or.inl h
      · exact Or.inr (List.mem_cons_self _ _)
      · exact Or.inr (List.mem_cons_of_mem _ h)
    · rintro (h | h)
      · exact Or.inl (Or.inl h)
      · rcases List.mem_cons.1 h with rfl | h
        · exact Or.inl (Or.inr rfl)
        · exact Or.inr h

theorem keyIn_buildColumnDict (names : List String) (n : String) (hn : n ∈ names) :
    keyIn (buildColumnDict names) n = true :=
  (keyIn_buildColumnDictAux names [] "A" n).2 (Or.inr hn)

theorem pyDict_keys (names : List String) :
    ∀ (acc : List (String × String)) (p : String × String),
      p ∈ names.foldl (fun m n => assocPut m n n) acc → p ∈ acc ∨ p.1 ∈ names := by
  induction names with
  | nil =>
    intro acc p hp
    exact Or.inl hp
  | cons n rest ih =>
    intro acc p hp
    rcases ih (assocPut acc n n) p hp with h | h
    · rcases mem_assocPut acc n n h with h | rfl
      · exact Or.inl h
      · exact Or.inr (List.mem_cons_self _ _)
    · exact Or.inr (List.mem_cons_of_mem _ h)

theorem header_all_known (names : List String) :
    (pyDictOfNames names).all (fun p => keyIn (buildColumnDict names) p.1) = true := by
  rw [List.all_eq_true]
  intro p hp
  rcases pyDict_keys names [] p hp with h | h
  · exact absurd h (List.not_mem_nil p)
  · exact keyIn_buildColumnDict names p.1 h

/-! ## Operation equations -/

theorem insert_row_known (t : SheetTable) (g : Grid) (row : List (String × String))
    (vio : String) (h : row.all (fun p => keyIn t.column_dict p.1) = true) :
    t.insert_row g row vio =
      (.ok (writeCells g t.column_dict row ((colAResponse g).length + 1)),
        [RemoteCall.valuesGet (t.title ++ "!A:A"),
         RemoteCall.valuesBatchUpdate vio (row.map (fun p =>
           WriteData.mk (cellRange t.title (lookupD t.column_dict p.1)
             ((colAResponse g).length + 1)) [[p.2]]))]) := by
  show (if row.all (fun p => keyIn t.column_dict p.1) = true then _ else _) = _
  rw [if_pos h]
  rfl

theorem insert_row_unknown (t : SheetTable) (g : Grid) (row : List (String × String))
    (vio : String) (h : row.all (fun p => keyIn t.column_dict p.1) = false) :
    t.insert_row g row vio = (.error .UnknownColumn, []) := by
  show (if row.all (fun p => keyIn t.column_dict p.1) = true then _ else _) = _
  rw [if_neg (by simp [h])]

theorem reflect_columns_eq (title : String) (g : Grid) :
    reflect_columns title g =
      (buildColumnDict ((row1Response g).headD []),
        [RemoteCall.valuesGet (title ++ "!1:1")]) := rfl

theorem create_sheet_fresh (db : SpreadSheetDB) (title : String) (names : List String)
    (hfresh : keyIn db.sheets title = false) :
    db.create_sheet title names =
      (.ok (SpreadSheetDB.mk db.spreadsheet_id
              (db.sheets ++ [(title, SheetTable.mk db.spreadsheet_id title
                (buildColumnDict names))]),
            SheetTable.mk db.spreadsheet_id title (buildColumnDict names),
            writeCells emptyGrid (buildColumnDict names) (pyDictOfNames names) 1),
       [RemoteCall.addSheet title,
        RemoteCall.valuesGet (title ++ "!A:A"),
        RemoteCall.valuesBatchUpdate "RAW" ((pyDictOfNames names).map (fun p =>
          WriteData.mk (cellRange title (lookupD (buildColumnDict names) p.1) 1)
            [[p.2]]))]) := by
  have hins := insert_row_known
    (SheetTable.mk db.spreadsheet_id title (buildColumnDict names))
    emptyGrid (pyDictOfNames names) "RAW" (header_all_known names)
  show (if keyIn db.sheets title = true then _ else _) = _
  rw [if_neg (by simp [hfresh])]
  simp only [hins]
  rfl

/-! ## Duplicate-free mappings are letter assignments in order -/

theorem buildColumnDictAux_nodup (names : List String) :
    ∀ (acc : List (String × String)) (cid : String),
      names.Nodup → (∀ n ∈ names, keyIn acc n = false) →
      buildColumnDictAux acc cid names = acc ++ zipLetters cid names := by
  induction names with
  | nil =>
    intro acc cid _ _
    simp [buildColumnDictAux, zipLetters]
  | cons n rest ih =>
    intro acc cid hnd hks
    have hnr : n ∉ rest := (List.nodup_cons.1 hnd).1
    show buildColumnDictAux (assocPut acc n cid) (next_column_total cid) rest = _
    rw [ih (assocPut acc n cid) (next_column_total cid) (List.nodup_cons.1 hnd).2
      (fun m hm => keyIn_assocPut_ne acc n cid m (hks m (List.mem_cons_of_mem n hm))
        (fun he => hnr (he ▸ hm)))]
    rw [assocPut_not_key acc n cid (hks n (List.mem_cons_self n rest))]
    rw [List.append_assoc]
    rfl

theorem buildColumnDict_nodup (names : List String) (h : names.Nodup) :
    buildColumnDict names = zipLetters "A" names := by
  show buildColumnDictAux [] "A" names = _
  rw [buildColumnDictAux_nodup names [] "A" h (fun n _ => rfl)]
  rfl

theorem pyDictAux_nodup (names : List String) :
    ∀ (acc : List (String × String)),
      names.Nodup → (∀ n ∈ names, keyIn acc n = false) →
      names.foldl (fun m n => assocPut m n n) acc = acc ++ names.map (fun n => (n, n)) := by
  induction names with
  | nil =>
    intro acc _ _
    simp
  | cons n rest ih =>
    intro acc hnd hks
    have hnr : n ∉ rest := (List.nodup_cons.1 hnd).1
    show rest.foldl (fun m x => assocPut m x x) (assocPut acc n n) = _
    rw [ih (assocPut acc n n) (List.nodup_cons.1 hnd).2
      (fun m hm => keyIn_assocPut_ne acc n n m (hks m (List.mem_cons_of_mem n hm))
        (fun he => hnr (he ▸ hm)))]
    rw [assocPut_not_key acc n n (hks n (List.mem_cons_self n rest))]
    rw [List.append_assoc]
    rfl

theorem pyDict_nodup (names : List String) (h : names.Nodup) :
    pyDictOfNames names = names.map (fun n => (n, n)) := by
  show names.foldl (fun m n => assocPut m n n) [] = _
  rw [pyDictAux_nodup names [] h (fun n _ => rfl)]
  rfl

theorem lookupD_zipLetters (names : List String) :
    ∀ (cid : String) (i : Nat) (h : i < names.length),
      names.Nodup →
      lookupD (zipLetters cid names) (names.get ⟨i, h⟩) = iterNext i cid := by
  induction names with
  | nil =>
    intro cid i h _
    exact absurd h (by simp)
  | cons n rest ih =>
    intro cid i h hnd
    cases i with
    | zero =>
      show lookupD ((n, cid) :: zipLetters (next_column_total cid) rest) n = cid
      unfold lookupD
      rw [List.find?_cons_of_pos _ (by simp)]
    | succ j =>
      have hj : j < rest.length := Nat.lt_of_succ_lt_succ h
      have hnr : n ∉ rest := (List.nodup_cons.1 hnd).1
      have hne : n ≠ rest.get ⟨j, hj⟩ := by
        intro he
        exact hnr (by rw [he]; exact rest.get_mem j hj)
      show lookupD ((n, cid) :: zipLetters (next_column_total cid) rest)
        (rest.get ⟨j, hj⟩) = iterNext (j + 1) cid
      unfold lookupD
      rw [List.find?_cons_of_neg _ (by simpa using hne)]
      exact ih (next_column_total cid) j hj (List.nodup_cons.1 hnd).2

theorem next_column_total_spec (cid : String) (h1 : cid ≠ "") (h2 : UpperList cid.toList) :
    next_column_total cid ≠ "" ∧ UpperList (next_column_total cid).toList ∧
      decodeColumn (next_column_total cid) = decodeColumn cid + 1 := by
  obtain ⟨M, hM, hne, hup, hdec⟩ := next_column_spec cid h1 h2
  have ht := next_column_total_eq cid h1
  rw [hM] at ht
  injection ht with hMe
  subst hMe
  exact ⟨hne, hup, hdec⟩

theorem iterNext_spec (i : Nat) :
    ∀ (cid : String), cid ≠ "" → UpperList cid.toList →
      iterNext i cid ≠ "" ∧ UpperList (iterNext i cid).toList ∧
        decodeColumn (iterNext i cid) = decodeColumn cid + i := by
  induction i with
  | zero =>
    intro cid h1 h2
    exact ⟨h1, h2, by simp [iterNext]⟩
  | succ j ih =>
    intro cid h1 h2
    obtain ⟨t1, t2, t3⟩ := next_column_total_spec cid h1 h2
    obtain ⟨s1, s2, s3⟩ := ih (next_column_total cid) t1 t2
    refine ⟨s1, s2, ?_⟩
    show decodeColumn (iterNext j (next_column_total cid)) = decodeColumn cid + (j + 1)
    rw [s3, t3]
    omega

/-! ## The header write fills row 1 left to right -/

theorem set_append_len (pre : List String) (v w : String) :
    (pre ++ [w]).set pre.length v = pre ++ [v] := by
  induction pre with
  | nil => rfl
  | cons a t ih =>
    show a :: (t ++ [w]).set t.length v = a :: (t ++ [v])
    rw [ih]

theorem applyValue_snoc (pre : List String) (v : String) :
    applyValue [pre] pre.length 0 v = [pre ++ [v]] := by
  show (padRows [pre] 1).set 0
    ((padCols ((padRows [pre] 1).getD 0 []) (pre.length + 1)).set pre.length v) = _
  have h1 : padRows [pre] 1 = [pre] := rfl
  rw [h1]
  have h2 : ([pre] : Grid).getD 0 [] = pre := rfl
  rw [h2]
  have h3 : padCols pre (pre.length + 1) = pre ++ [""] := by
    show pre ++ List.replicate (pre.length + 1 - pre.length) "" = _
    rw [Nat.add_sub_cancel_left]
    rfl
  rw [h3, set_append_len]
  rfl

theorem fold_applyValue_seq (vs : List String) :
    ∀ (f : String → Nat) (pre : List String),
      (∀ i (hi : i < vs.length), f (vs.get ⟨i, hi⟩) = pre.length + i) →
      vs.foldl (fun g v => applyValue g (f v) 0 v) [pre] = [pre ++ vs] := by
  induction vs with
  | nil =>
    intro f pre _
    simp
  | cons v rest ih =>
    intro f pre h
    have h0 : f v = pre.length := by
      have h1 := h 0 (Nat.succ_pos rest.length)
      simpa using h1
    show rest.foldl (fun g x => applyValue g (f x) 0 x) (applyValue [pre] (f v) 0 v) = _
    rw [h0, applyValue_snoc]
    rw [ih f (pre ++ [v]) ?_]
    · rw [List.append_assoc]
      rfl
    · intro i hi
      have h2 : f (rest.get ⟨i, hi⟩) = pre.length + (i + 1) := h (i + 1) (Nat.succ_lt_succ hi)
      rw [List.length_append]
      simp only [List.length_cons, List.length_nil]
      omega

theorem writeCells_header_cons (v : String) (rest : List String) (hnd : (v :: rest).Nodup) :
    writeCells emptyGrid (buildColumnDict (v :: rest)) (pyDictOfNames (v :: rest)) 1 =
      [v :: rest] := by
  have hdict := buildColumnDict_nodup (v :: rest) hnd
  have hcol : ∀ i (hi : i < (v :: rest).length),
      decodeColumn (lookupD (buildColumnDict (v :: rest)) ((v :: rest).get ⟨i, hi⟩)) - 1 = i := by
    intro i hi
    rw [hdict, lookupD_zipLetters (v :: rest) "A" i hi hnd]
    have hs := (iterNext_spec i "A" (by decide) (by decide)).2.2
    have hA : decodeColumn "A" = 1 := rfl
    omega
  unfold writeCells
  rw [pyDict_nodup (v :: rest) hnd, List.foldl_map]
  show rest.foldl
      (fun g2 n => applyValue g2 (decodeColumn (lookupD (buildColumnDict (v :: rest)) n) - 1)
        (1 - 1) n)
      (applyValue emptyGrid (decodeColumn (lookupD (buildColumnDict (v :: rest)) v) - 1)
        (1 - 1) v) = [v :: rest]
  have h0 : decodeColumn (lookupD (buildColumnDict (v :: rest)) v) - 1 = 0 :=
    hcol 0 (Nat.succ_pos rest.length)
  rw [h0]
  show rest.foldl
      (fun g2 n => applyValue g2 (decodeColumn (lookupD (buildColumnDict (v :: rest)) n) - 1)
        0 n) [[v]] = [v :: rest]
  refine (fold_applyValue_seq rest
    (fun n => decodeColumn (lookupD (buildColumnDict (v :: rest)) n) - 1) [v] ?_).trans rfl
  intro i hi
  have h2 : decodeColumn (lookupD (buildColumnDict (v :: rest)) (rest.get ⟨i, hi⟩)) - 1 = i + 1 :=
    hcol (i + 1) (Nat.succ_lt_succ hi)
  show decodeColumn (lookupD (buildColumnDict (v :: rest)) (rest.get ⟨i, hi⟩)) - 1 = 1 + i
  omega

theorem trimTrailing_no_empty (l : List String) (h : ∀ x ∈ l, x ≠ "") :
    trimTrailing l = l := by
  have hd : l.reverse.dropWhile (fun v => v == "") = l.reverse := by
    cases hrev : l.reverse with
    | nil => rfl
    | cons a t =>
      have ha : a ∈ l := by
        have hm : a ∈ l.reverse := by
          rw [hrev]
          exact List.mem_cons_self a t
        simpa using hm
      rw [List.dropWhile_cons, if_neg (by simp [h a ha])]
  show (l.reverse.dropWhile (fun v => v == "")).reverse = l
  rw [hd, List.reverse_reverse]

theorem row1Response_single (names : List String) (h : ∀ x ∈ names, x ≠ "")
    (hne : names ≠ []) : row1Response [names] = [names] := by
  show (match trimTrailing names with | [] => [] | r' => [r']) = [names]
  rw [trimTrailing_no_empty names h]
  cases names with
  | nil => exact absurd rfl hne
  | cons a t => rfl

theorem cellAt_row1 (names : List String) (i : Nat) (hi : i < names.length) :
    cellAt [names] 0 i = names.get ⟨i, hi⟩ := by
  show (([names] : Grid).getD 0 []).getD i "" = _
  have h1 : ([names] : Grid).getD 0 [] = names := rfl
  rw [h1]
  exact List.getD_eq_getElem names "" hi

/-! ## Claims -/

/-- C1 (counterexample): on a two-column table with a header row and 4 data
rows, `clear_all_data` clears the range `T!A2:C6` — not `T!A2:B5` as
claimed: the row bound is `next_empty_row_id()` itself (6, one past the
last occupied row), and the letter loop advances once per mapped column
starting from `'A'`, landing one past the last occupied column (`C`). -/
theorem clear_all_data_not_A2B5 :
    ((SheetTable.mk "sid" "T" [("id", "A"), ("name", "B")]).clear_all_data
        [["id", "name"], ["1", "a"], ["2", "b"], ["3", "c"], ["4", "d"]]).2 =
      [RemoteCall.valuesGet "T!A:A", RemoteCall.valuesClear "T!A2:C6"] ∧
    ("T!A2:C6" : String) ≠ "T!A2:B5" := by
  exact ⟨rfl, by decide⟩

/-- C1 (amended): on a two-column table with a header row and 4 data rows,
`clear_all_data` reads column A and clears the rectangle `A2:C6` (row 2
through `next_empty_row_id() = 6`, column letter obtained by incrementing
`'A'` once per mapped column, giving `C`); the header row 1 is untouched
and all data rows are blanked; a second call on the now-empty table clears
the already-empty range `A2:C2` without error. -/
theorem clear_all_data_two_columns_four_rows :
    ((SheetTable.mk "sid" "T" [("id", "A"), ("name", "B")]).clear_all_data
        [["id", "name"], ["1", "a"], ["2", "b"], ["3", "c"], ["4", "d"]]).2 =
      [RemoteCall.valuesGet "T!A:A", RemoteCall.valuesClear "T!A2:C6"] ∧
    ((SheetTable.mk "sid" "T" [("id", "A"), ("name", "B")]).clear_all_data
        [["id", "name"], ["1", "a"], ["2", "b"], ["3", "c"], ["4", "d"]]).1 =
      [["id", "name"], ["", ""], ["", ""], ["", ""], ["", ""]] ∧
    ((SheetTable.mk "sid" "T" [("id", "A"), ("name", "B")]).clear_all_data
        [["id", "name"], ["", ""], ["", ""], ["", ""], ["", ""]]).2 =
      [RemoteCall.valuesGet "T!A:A", RemoteCall.valuesClear "T!A2:C2"] := by
  exact ⟨rfl, rfl, rfl⟩

/-- C2: `increment("A") = "B"`, `increment("Z") = "AA"`,
`increment("AZ") = "BA"`, `increment("ZZ") = "AAA"`, and for every
non-empty uppercase column letter `L`,
`decode(increment(L)) = decode(L) + 1` where `decode` is the 1-based
bijective base-26 value. -/
theorem next_column_decode_succ :
    next_column "A" = .ok "B" ∧ next_column "Z" = .ok "AA" ∧
    next_column "AZ" = .ok "BA" ∧ next_column "ZZ" = .ok "AAA" ∧
    ∀ L : String, L ≠ "" → UpperList L.toList →
      ∃ M, next_column L = .ok M ∧ decodeColumn M = decodeColumn L + 1 := by
  refine ⟨rfl, rfl, rfl, rfl, ?_⟩
  intro L h1 h2
  obtain ⟨M, hM, _, _, hdec⟩ := next_column_spec L h1 h2
  exact ⟨M, hM, hdec⟩

/-- C2 (witness): the universal part at `L = "AZ"`. -/
theorem next_column_decode_succ_witness :
    ∃ M, next_column "AZ" = .ok M ∧ decodeColumn M = decodeColumn "AZ" + 1 :=
  next_column_decode_succ.2.2.2.2 "AZ" (by decide) (by decide)

/-- C3 (counterexample): `next_column "1"` contains a non-letter character
yet does not fail with `InvalidInput`; it returns `"2"`. -/
theorem next_column_accepts_nonletter :
    next_column "1" = .ok "2" ∧ next_column "1" ≠ .error .InvalidInput := by
  refine ⟨rfl, ?_⟩
  intro h
  have h2 : (Except.ok "2" : Except GSheetError String) = .error .InvalidInput :=
    (rfl : next_column "1" = .ok "2").symm.trans h
  exact Except.noConfusion h2

/-- C3 (amended): `next_column` fails (with `InvalidInput`, the
`assert column`) exactly on the empty string; characters are not
validated, so every non-empty input — over characters whose successor
stays a valid code point — succeeds. -/
theorem next_column_empty_only_error :
    next_column "" = .error .InvalidInput ∧
    ∀ L : String, L ≠ "" → (∀ c ∈ L.toList, c.toNat + 1 < 55296) →
      ∃ M, next_column L = .ok M := by
  refine ⟨rfl, ?_⟩
  intro L h1 _
  exact ⟨_, next_column_ne_empty L h1⟩

/-- C3 (witness): the amended claim at `L = "Q9"`. -/
theorem next_column_empty_only_error_witness :
    ∃ M, next_column "Q9" = .ok M :=
  next_column_empty_only_error.2 "Q9" (by decide) (by decide)

/-- C4: a row containing a column name absent from the mapping makes
`insert_row` fail with `UnknownColumn` and issue no remote call at all:
the result carries the empty request trace. -/
theorem insert_row_unknown_column_no_call (t : SheetTable) (g : Grid)
    (row : List (String × String)) (vio : String)
    (h : ∃ p ∈ row, keyIn t.column_dict p.1 = false) :
    t.insert_row g row vio = (.error .UnknownColumn, []) := by
  apply insert_row_unknown
  rcases h with ⟨p, hp, hk⟩
  cases hv : row.all (fun q => keyIn t.column_dict q.1) with
  | false => rfl
  | true =>
    exact absurd (hk.symm.trans (List.all_eq_true.1 hv p hp)) (by decide)

/-- C4 (witness): inserting `{x: 1}` into a table mapping only `name`. -/
theorem insert_row_unknown_column_no_call_witness :
    (SheetTable.mk "sid" "T" [("name", "B")]).insert_row [["h"]] [("x", "1")]
      "USER_ENTERED" = (.error .UnknownColumn, []) :=
  insert_row_unknown_column_no_call (SheetTable.mk "sid" "T" [("name", "B")]) [["h"]]
    [("x", "1")] "USER_ENTERED" ⟨("x", "1"), by decide, by decide⟩

/-- C5: when every key of the row is a mapped column, `insert_row` reads
the next empty row id exactly once and issues exactly one batched write
whose data holds, for every (name, value) pair, the single-cell range
`{title}!{letter}{row_id}:{letter}{row_id}` with values `[[value]]`. -/
theorem insert_row_one_batched_write (t : SheetTable) (g : Grid)
    (row : List (String × String)) (vio : String)
    (h : ∀ p ∈ row, keyIn t.column_dict p.1 = true) :
    ∃ g2, t.insert_row g row vio =
      (.ok g2,
        [RemoteCall.valuesGet (t.title ++ "!A:A"),
         RemoteCall.valuesBatchUpdate vio (row.map (fun p =>
           WriteData.mk (cellRange t.title (lookupD t.column_dict p.1)
             (next_empty_row_id t.title g).1) [[p.2]]))]) := by
  exact ⟨writeCells g t.column_dict row ((colAResponse g).length + 1),
    insert_row_known t g row vio (List.all_eq_true.2 h)⟩

/-- C5 (witness): `insert_row({name: Alice})` with mapping `name → B` and
next empty row 5 writes `[["Alice"]]` to `T!B5:B5` in one batch. -/
theorem insert_row_one_batched_write_witness :
    ∃ g2, (SheetTable.mk "sid" "T" [("name", "B")]).insert_row
        [["h"], ["1"], ["2"], ["3"]] [("name", "Alice")] "USER_ENTERED" =
      (.ok g2,
        [RemoteCall.valuesGet "T!A:A",
         RemoteCall.valuesBatchUpdate "USER_ENTERED"
           [WriteData.mk "T!B5:B5" [["Alice"]]]]) :=
  insert_row_one_batched_write (SheetTable.mk "sid" "T" [("name", "B")])
    [["h"], ["1"], ["2"], ["3"]] [("name", "Alice")] "USER_ENTERED" (by decide)

/-- C6 (counterexample): `create_sheet` with the duplicated column list
`["x", "x"]` does not fail with `DuplicateColumnName`: it succeeds (the
second occurrence silently overwrites the first, mapping `x → B`) and it
issues the remote add-sheet request plus the header write. -/
theorem create_sheet_duplicate_names_succeeds :
    ((SpreadSheetDB.mk "sid" []).create_sheet "S" ["x", "x"]).1 =
      .ok (SpreadSheetDB.mk "sid" [("S", SheetTable.mk "sid" "S" [("x", "B")])],
           SheetTable.mk "sid" "S" [("x", "B")], [["", "x"]]) ∧
    ((SpreadSheetDB.mk "sid" []).create_sheet "S" ["x", "x"]).2 =
      [RemoteCall.addSheet "S", RemoteCall.valuesGet "S!A:A",
       RemoteCall.valuesBatchUpdate "RAW" [WriteData.mk "S!B1:B1" [["x"]]]] := by
  exact ⟨rfl, rfl⟩

/-- C6 (amended): `create_sheet` fails with `DuplicateSheet` when the title
is already known, detected locally with no remote call; duplicate column
names are not checked — with a fresh title the call always succeeds,
storing the new table and issuing the add-sheet request first. -/
theorem create_sheet_precondition_checks (db : SpreadSheetDB) (title : String)
    (names : List String) :
    (keyIn db.sheets title = true →
      db.create_sheet title names = (.error .DuplicateSheet, [])) ∧
    (keyIn db.sheets title = false →
      ∃ sheet g2 calls,
        db.create_sheet title names =
          (.ok (SpreadSheetDB.mk db.spreadsheet_id (db.sheets ++ [(title, sheet)]),
              sheet, g2),
            RemoteCall.addSheet title :: calls)) := by
  constructor
  · intro h
    show (if keyIn db.sheets title = true then _ else _) = _
    rw [if_pos h]
  · intro h
    exact ⟨_, _, _, create_sheet_fresh db title names h⟩

/-- C6 (witness): the duplicate-title rejection on a store already holding
`"S"`, and the success branch on an empty store with duplicated names. -/
theorem create_sheet_precondition_checks_witness :
    (SpreadSheetDB.mk "sid" [("S", SheetTable.mk "sid" "S" [])]).create_sheet "S" ["a"] =
      (.error .DuplicateSheet, []) ∧
    ∃ sheet g2 calls,
      (SpreadSheetDB.mk "sid" []).create_sheet "S" ["x", "x"] =
        (.ok (SpreadSheetDB.mk "sid" ([] ++ [("S", sheet)]), sheet, g2),
          RemoteCall.addSheet "S" :: calls) :=
  ⟨(create_sheet_precondition_checks
      (SpreadSheetDB.mk "sid" [("S", SheetTable.mk "sid" "S" [])]) "S" ["a"]).1 (by decide),
   (create_sheet_precondition_checks (SpreadSheetDB.mk "sid" []) "S" ["x", "x"]).2 (by decide)⟩

/-- C7: `reflect_columns` returns the empty mapping when the read of row 1
returns no values; otherwise it assigns the i-th value of the returned row
to the i-th column letter, starting at `'A'` and advancing by repeated
increment. -/
theorem reflect_columns_assigns_letters (title : String) (g : Grid) :
    (row1Response g = [] →
      reflect_columns title g = ([], [RemoteCall.valuesGet (title ++ "!1:1")])) ∧
    (∀ names, row1Response g = [names] → names.Nodup →
      reflect_columns title g =
        (zipLetters "A" names, [RemoteCall.valuesGet (title ++ "!1:1")])) := by
  constructor
  · intro h
    rw [reflect_columns_eq, h]
    rfl
  · intro names h hnd
    rw [reflect_columns_eq, h]
    show (buildColumnDict names, [RemoteCall.valuesGet (title ++ "!1:1")]) = _
    rw [buildColumnDict_nodup names hnd]

/-- C7 (witness): reflecting the header row `["id", "name", "email"]`
yields the mapping `{id: A, name: B, email: C}`. -/
theorem reflect_columns_assigns_letters_witness :
    reflect_columns "T" [["id", "name", "email"]] =
      ([("id", "A"), ("name", "B"), ("email", "C")],
        [RemoteCall.valuesGet "T!1:1"]) :=
  ((reflect_columns_assigns_letters "T" [["id", "name", "email"]]).2
    ["id", "name", "email"] rfl (by decide)).trans (by decide)

/-- C8: round trip — for a fresh title and duplicate-free (non-blank)
column names, `create_sheet` writes the header into row 1 in `'RAW'` mode
so each header cell literally holds its column name, and reflecting the
resulting sheet returns the same `ColumnMapping` that `create_sheet`
built. -/
theorem create_sheet_reflect_roundtrip (db : SpreadSheetDB) (title : String)
    (names : List String) (hfresh : keyIn db.sheets title = false)
    (hnd : names.Nodup) (hblank : ∀ n ∈ names, n ≠ "") :
    ∃ db2 sheet g2 data,
      db.create_sheet title names =
        (.ok (db2, sheet, g2),
          [RemoteCall.addSheet title, RemoteCall.valuesGet (title ++ "!A:A"),
           RemoteCall.valuesBatchUpdate "RAW" data]) ∧
      sheet.column_dict = zipLetters "A" names ∧
      (reflect_columns title g2).1 = zipLetters "A" names ∧
      ∀ i (hi : i < names.length), cellAt g2 0 i = names.get ⟨i, hi⟩ := by
  refine ⟨_, _, _, _, create_sheet_fresh db title names hfresh, ?_, ?_, ?_⟩
  · exact buildColumnDict_nodup names hnd
  · cases names with
    | nil => rfl
    | cons v rest =>
      rw [writeCells_header_cons v rest hnd]
      rw [reflect_columns_eq]
      show buildColumnDict ((row1Response [v :: rest]).headD []) = _
      rw [row1Response_single (v :: rest) hblank (by simp)]
      show buildColumnDict (v :: rest) = _
      exact buildColumnDict_nodup _ hnd
  · intro i hi
    cases names with
    | nil => exact absurd hi (by simp)
    | cons v rest =>
      rw [writeCells_header_cons v rest hnd]
      exact cellAt_row1 (v :: rest) i hi

/-- C8 (witness): `create_sheet("Users", ["id", "name"])` then reflecting
yields `{id: A, name: B}` with header cells `"id"`, `"name"`. -/
theorem create_sheet_reflect_roundtrip_witness :
    ∃ db2 sheet g2 data,
      (SpreadSheetDB.mk "sid" []).create_sheet "Users" ["id", "name"] =
        (.ok (db2, sheet, g2),
          [RemoteCall.addSheet "Users", RemoteCall.valuesGet "Users!A:A",
           RemoteCall.valuesBatchUpdate "RAW" data]) ∧
      sheet.column_dict = zipLetters "A" ["id", "name"] ∧
      (reflect_columns "Users" g2).1 = zipLetters "A" ["id", "name"] ∧
      ∀ i (hi : i < (["id", "name"] : List String).length),
        cellAt g2 0 i = (["id", "name"] : List String).get ⟨i, hi⟩ :=
  create_sheet_reflect_roundtrip (SpreadSheetDB.mk "sid" []) "Users" ["id", "name"]
    (by decide) (by decide) (by decide)

/-- C9: `next_empty_row_id` reads the full column-A range of the sheet and
returns the number of rows of the remote response plus one — one when the
response has no values. -/
theorem next_empty_row_id_count (title : String) (g : Grid) :
    next_empty_row_id title g =
      ((colAResponse g).length + 1, [RemoteCall.valuesGet (title ++ "!A:A")]) ∧
    (colAResponse g = [] → (next_empty_row_id title g).1 = 1) := by
  refine ⟨rfl, ?_⟩
  intro h
  show (colAResponse g).length + 1 = 1
  rw [h]
  rfl

/-- C9 (witness): two occupied column-A rows give row id 3; the empty grid
gives row id 1. -/
theorem next_empty_row_id_count_witness :
    next_empty_row_id "T" [["id"], ["1"]] = (3, [RemoteCall.valuesGet "T!A:A"]) ∧
    (next_empty_row_id "T" emptyGrid).1 = 1 :=
  ⟨(next_empty_row_id_count "T" [["id"], ["1"]]).1.trans (by decide),
   (next_empty_row_id_count "T" emptyGrid).2 rfl⟩

/-- C10: a call of `insert_row` that omits `value_input_option` issues its
batched write with mode `USER_ENTERED`; `create_sheet`'s header write
passes `RAW` explicitly. -/
theorem insert_row_default_is_user_entered :
    (∀ (t : SheetTable) (g : Grid) (row : List (String × String)),
      (∀ p ∈ row, keyIn t.column_dict p.1 = true) →
      ∃ g2 data, t.insert_row_default g row =
        (.ok g2, [RemoteCall.valuesGet (t.title ++ "!A:A"),
          RemoteCall.valuesBatchUpdate "USER_ENTERED" data])) ∧
    (∀ (db : SpreadSheetDB) (title : String) (names : List String),
      keyIn db.sheets title = false →
      ∃ res data, db.create_sheet title names =
        (res, [RemoteCall.addSheet title, RemoteCall.valuesGet (title ++ "!A:A"),
          RemoteCall.valuesBatchUpdate "RAW" data])) := by
  constructor
  · intro t g row h
    have hh := insert_row_known t g row "USER_ENTERED" (List.all_eq_true.2 h)
    exact ⟨_, _, hh⟩
  · intro db title names hfresh
    exact ⟨_, _, create_sheet_fresh db title names hfresh⟩

/-- C10 (witness): a default-mode insert on a one-column table, and a
fresh-title `create_sheet` issuing its header write in `RAW` mode. -/
theorem insert_row_default_is_user_entered_witness :
    (∃ g2 data, (SheetTable.mk "sid" "T" [("name", "B")]).insert_row_default
        [["h"], ["1"], ["2"], ["3"]] [("name", "Alice")] =
      (.ok g2, [RemoteCall.valuesGet "T!A:A",
        RemoteCall.valuesBatchUpdate "USER_ENTERED" data])) ∧
    (∃ res data, (SpreadSheetDB.mk "sid" []).create_sheet "S" ["a"] =
      (res, [RemoteCall.addSheet "S", RemoteCall.valuesGet "S!A:A",
        RemoteCall.valuesBatchUpdate "RAW" data])) :=
  ⟨insert_row_default_is_user_entered.1 (SheetTable.mk "sid" "T" [("name", "B")])
      [["h"], ["1"], ["2"], ["3"]] [("name", "Alice")] (by decide),
   insert_row_default_is_user_entered.2 (SpreadSheetDB.mk "sid" []) "S" ["a"] (by decide)⟩
